import Mathlib

/-!
A verification development for the shipit command-line tool.

The pure helpers of `src/utils.ts` (`decapitalizeFirstLetter`, `wrapText`,
`categorizeTokenCount`, `buildCommitMessages`) are embedded as executable
Lean functions over `String` and `List Char`.  The change-analysis /
streaming / interactive-commit control flow of the entry point (`main`)
is embedded as an explicit state machine: repository status, user
confirmations and version-control operation outcomes are inputs, and the
run produces an exit code together with the ordered list of
version-control effects it performed.

JavaScript strings are modelled as Lean `String` (one `Char` per code
point, `String.length` counting characters); `toLocaleLowerCase` of a
single character is modelled by `Char.toLower`.  Terminal styling
(chalk) only wraps text in ANSI escapes and is modelled as the identity
on the styled text.
-/

/-- From src/utils.ts: `str.charAt(0).toLocaleLowerCase() + str.slice(1)`. -/
def decapitalizeFirstLetter (str : String) : String :=
  match str.data with
  | [] => ""
  | c :: cs => String.mk (c.toLower :: cs)

/-- JavaScript `text.split(" ")` on the character list: splits at every single
space, keeping empty fragments (so consecutive spaces yield empty words). -/
def splitOnSpaceChars : List Char → List (List Char)
  | [] => [[]]
  | c :: cs =>
    if c = ' ' then
      [] :: splitOnSpaceChars cs
    else
      match splitOnSpaceChars cs with
      | [] => [[c]]
      | w :: ws => (c :: w) :: ws

/-- The word list `text.split(" ")` of src/utils.ts `wrapText`. -/
def splitWords (text : String) : List String :=
  (splitOnSpaceChars text.data).map String.mk

/-- JavaScript `Array.prototype.join(sep)`: empty for `[]`, the sole element
for a singleton, otherwise the elements interleaved with `sep`. -/
def joinWith (sep : String) : List String → String
  | [] => ""
  | [x] => x
  | x :: xs => x ++ sep ++ joinWith sep xs

/-- The `for (const word of words)` loop of src/utils.ts `wrapText`, together
with the trailing `if (currentLine.length > 0) lines.push(currentLine)`. -/
def wrapLoop (maxWidth : Nat) (lines : List String) (currentLine : String) :
    List String → List String
  | [] => if 0 < currentLine.length then lines ++ [currentLine] else lines
  | word :: ws =>
    let spaceNeeded := if 0 < currentLine.length then 1 else 0
    if maxWidth < currentLine.length + word.length + spaceNeeded then
      if 0 < currentLine.length then
        wrapLoop maxWidth (lines ++ [currentLine]) word ws
      else
        wrapLoop maxWidth (lines ++ [word]) currentLine ws
    else
      wrapLoop maxWidth lines
        (currentLine ++ (if 0 < currentLine.length then " " else "") ++ word) ws

/-- The list of lines produced by src/utils.ts `wrapText` before they are
joined with newlines. -/
def wrapLines (text : String) (maxWidth : Nat) : List String :=
  wrapLoop maxWidth [] "" (splitWords text)

/-- From src/utils.ts: wraps text greedily to `maxWidth` columns (default 80)
and joins the lines with newlines. -/
def wrapText (text : String) (maxWidth : Nat := 80) : String :=
  joinWith "\n" (wrapLines text maxWidth)

/-- Helper of `collapseWhitespaceRuns`: `inRun` records whether the previous
character belonged to a whitespace run (for which `repl` was already
emitted). -/
def collapseWsAux (repl : Char) (inRun : Bool) : List Char → List Char
  | [] => []
  | c :: cs =>
    if c.isWhitespace then
      (if inRun then [] else [repl]) ++ collapseWsAux repl true cs
    else
      c :: collapseWsAux repl false cs

/-- Replaces every maximal run of whitespace characters by the single
character `repl`: exactly one `repl` is emitted at the start of each run.
With `repl := '-'` this is the JavaScript `replace(/\s+/g, "-")` used by
`buildCommitMessages`. -/
def collapseWhitespaceRuns (repl : Char) (l : List Char) : List Char :=
  collapseWsAux repl false l

/-- From src/utils.ts `buildCommitMessages`:
`description.replace(/\s+/g, "-")`. -/
def replaceWhitespaceWithHyphens (s : String) : String :=
  String.mk (collapseWhitespaceRuns '-' s.data)

/-- Modelled from the spec: the whitespace-normalization of a text, namely
every maximal whitespace run collapsed to a single space.  This is the
claim-side reading of the phrase "the original whitespace-normalized text";
it is compared against the source-side word-wrap round trip.  (Additionally
trimming edge whitespace would not change any statement below, since the
inputs used have none.) -/
def specWhitespaceNormalize (s : String) : String :=
  String.mk (collapseWhitespaceRuns ' ' s.data)

/-- JavaScript `s.startsWith(p)` on character lists (`startsWithL s p`). -/
def startsWithL : List Char → List Char → Bool
  | _, [] => true
  | [], _ :: _ => false
  | c :: cs, p :: ps => c == p && startsWithL cs ps

/-- JavaScript `s.startsWith(p)`. -/
def strStartsWith (s p : String) : Bool :=
  startsWithL s.data p.data

/-- Terminal styling `chalk.dim` modelled as the identity on the text. -/
def chalkDim (s : String) : String := s

/-- Terminal styling `chalk.bold` modelled as the identity on the text. -/
def chalkBold (s : String) : String := s

/-- Terminal styling `chalk.bold.red` modelled as the identity on the text. -/
def chalkBoldRed (s : String) : String := s

/-- The object returned by src/utils.ts `categorizeTokenCount`; the fields
`description` and `needsConfirmation` are absent (undefined, hence falsy)
for the three low tiers. -/
structure TokenCategory where
  emoji : Option String
  label : String
  description : Option String := none
  needsConfirmation : Bool := false
deriving DecidableEq

/-- From src/utils.ts: classifies a token count into a risk tier with fixed
ascending thresholds 5000, 15000, 50000, 100000. -/
def categorizeTokenCount (tokenCount : Nat) : TokenCategory :=
  if tokenCount < 5000 then
    { emoji := some "🟢"
      label := "looking fresh " ++ chalkDim "(instant response)" }
  else if tokenCount < 15000 then
    { emoji := some "🟡"
      label := "still vibing " ++ chalkDim "(1-2 seconds)" }
  else if tokenCount < 50000 then
    { emoji := some "🟠"
      label := "getting spicy " ++ chalkDim "(3-5 seconds)" }
  else if tokenCount < 100000 then
    { emoji := some "🔴"
      label := "woah there territory " ++ chalkDim "(may hit rate limits)"
      description := some "This will take 10+ seconds and cost significantly more."
      needsConfirmation := true }
  else
    { emoji := none
      label := chalkBoldRed "an absolute unit 💀"
      description := some "This exceeds most API limits and will be very expensive."
      needsConfirmation := true }

/-- The risk ordering of the five tiers returned by `categorizeTokenCount`,
read off the tier-identifying emoji (the highest tier has none):
green 0, yellow 1, orange 2, red 3, skull 4. -/
def riskRank (c : TokenCategory) : Nat :=
  match c.emoji with
  | some "🟢" => 0
  | some "🟡" => 1
  | some "🟠" => 2
  | some "🔴" => 3
  | _ => 4

/-- A commit proposal streamed by the model: src/types via `responseSchema`
(type, optional scope, description, breaking flag, optional body, optional
footers, affected files).  An absent footers array and an empty one are
behaviorally identical (both falsy via `?.length`), so footers are a list. -/
structure CommitProposal where
  type : String
  scope : Option String := none
  description : String
  breaking : Bool := false
  body : Option String := none
  footers : List String := []
  files : List String := []
deriving DecidableEq

/-- The pair returned by src/utils.ts `buildCommitMessages`. -/
structure BuiltMessages where
  commitMessage : String
  displayMessage : String
deriving DecidableEq

/-- From src/utils.ts: builds the commit subject line and its display
variant.  With a Jira ticket, `{ticketId}-{type}{!}-{description}` with
whitespace runs of the decapitalized description collapsed to hyphens.
Otherwise the conventional `type(scope)!: description` form, where the
prefix is dropped entirely when the decapitalized description already
starts with it. -/
def buildCommitMessages (commit : CommitProposal) (jiraTicketId : Option String := none) :
    BuiltMessages :=
  let description := decapitalizeFirstLetter commit.description
  match jiraTicketId with
  | some ticketId =>
    let jiraType := commit.type ++ (if commit.breaking then "!" else "")
    let jiraDescription := replaceWhitespaceWithHyphens description
    let fullJiraMessage := ticketId ++ "-" ++ jiraType ++ "-" ++ jiraDescription
    { commitMessage := fullJiraMessage, displayMessage := fullJiraMessage }
  | none =>
    let pfx0 :=
      commit.type
        ++ (match commit.scope with
            | some sc => if 0 < sc.length then "(" ++ sc ++ ")" else ""
            | none => "")
        ++ (if commit.breaking then "!" else "")
    let pfx := if strStartsWith description pfx0 then "" else pfx0
    { commitMessage := (if 0 < pfx.length then pfx ++ ": " else "") ++ description
      displayMessage :=
        (if 0 < pfx.length then chalkBold (pfx ++ ": ") else "") ++ description }

/-- The computed conventional-commit prefix `type(scope)!` of the non-Jira
branch of `buildCommitMessages` (scope parenthesized when present and
nonempty, bang when breaking). -/
def conventionalPfx (commit : CommitProposal) : String :=
  commit.type
    ++ (match commit.scope with
        | some sc => if 0 < sc.length then "(" ++ sc ++ ")" else ""
        | none => "")
    ++ (if commit.breaking then "!" else "")

/-- From the entry point (the accepted-proposal branch of `main`): the
message actually passed to `git.commit` — the subject line, then the raw
body as a trailing paragraph when present, then the footers joined with
newlines as a trailing paragraph when present. -/
def persistedMessage (commit : CommitProposal) (jiraTicketId : Option String) : String :=
  let message := (buildCommitMessages commit jiraTicketId).commitMessage
  let message :=
    match commit.body with
    | some b => if 0 < b.length then message ++ "\n\n" ++ b else message
    | none => message
  if 0 < commit.footers.length then
    message ++ "\n\n" ++ joinWith "\n" commit.footers
  else
    message

/-- Modelled from the spec: the claimed shape of the persisted commit
message, in which the body paragraph is word-wrapped greedily at 80
columns.  Compared against the source-side `persistedMessage`. -/
def specPersistedMessage (commit : CommitProposal) (jiraTicketId : Option String) : String :=
  let message := (buildCommitMessages commit jiraTicketId).commitMessage
  let message :=
    match commit.body with
    | some b => if 0 < b.length then message ++ "\n\n" ++ wrapText b 80 else message
    | none => message
  if 0 < commit.footers.length then
    message ++ "\n\n" ++ joinWith "\n" commit.footers
  else
    message

/-- An observable version-control side effect of a run, in program order.
The source performs no unstage, reset or rollback operation, so no such
effect exists. -/
inductive GitEffect where
  | add (files : List String)
  | commit (message : String) (files : List String)
  | pullRequest
  | push
deriving DecidableEq

/-- The external inputs consumed by the interactive commit loop, indexed by
the position of the proposal in stream order: the answer to the k-th
"Ship it?" confirmation, whether the k-th `git.add` and `git.commit`
succeed, and the answer to the token-risk confirmation. -/
structure LoopEnv where
  accept : Nat → Bool
  addOk : Nat → Bool
  commitOk : Nat → Bool
  tokenAnswer : Bool := true

/-- The mutable state of the commit loop: the run-level applied-commit
counter `commitCount`, the version-control effects so far, and the number
of proposals processed (confirmations asked) so far. -/
structure LoopState where
  commitCount : Nat
  effects : List GitEffect
  confirms : Nat
deriving DecidableEq

/-- Why the commit loop aborted the run: `git.add` threw, or `git.commit`
threw.  Either aborts the whole process with exit code 1. -/
inductive ApplyFailure where
  | stageFailed
  | commitFailed
deriving DecidableEq

/-- Processing of one streamed proposal by the loop body of `main`:
ask for confirmation; if declined record nothing and continue; if accepted
stage exactly the listed files, then create one commit with the persisted
message, incrementing the applied-commit counter; a staging or commit
failure aborts the run. -/
def applyOne (jiraTicketId : Option String) (env : LoopEnv) (commit : CommitProposal)
    (st : LoopState) : Except (LoopState × ApplyFailure) LoopState :=
  let i := st.confirms
  let st1 : LoopState := { st with confirms := i + 1 }
  if env.accept i then
    if env.addOk i then
      let st2 : LoopState :=
        { st1 with effects := st1.effects ++ [GitEffect.add commit.files] }
      if env.commitOk i then
        Except.ok
          { st2 with
            effects :=
              st2.effects ++
                [GitEffect.commit (persistedMessage commit jiraTicketId) commit.files]
            commitCount := st2.commitCount + 1 }
      else
        Except.error (st2, ApplyFailure.commitFailed)
    else
      Except.error (st1, ApplyFailure.stageFailed)
  else
    Except.ok st1

/-- The inner `for (const commit of response.commits)` loop of `main` over
one streamed batch. -/
def runBatch (jiraTicketId : Option String) (env : LoopEnv) :
    List CommitProposal → LoopState → Except (LoopState × ApplyFailure) LoopState
  | [], st => Except.ok st
  | c :: cs, st =>
    match applyOne jiraTicketId env c st with
    | Except.ok st1 => runBatch jiraTicketId env cs st1
    | Except.error e => Except.error e

/-- The outer `for await (const response of elementStream)` loop of `main`:
batches are consumed strictly in order, each fully processed before the
next. -/
def runBatches (jiraTicketId : Option String) (env : LoopEnv) :
    List (List CommitProposal) → LoopState → Except (LoopState × ApplyFailure) LoopState
  | [], st => Except.ok st
  | b :: bs, st =>
    match runBatch jiraTicketId env b st with
    | Except.ok st1 => runBatches jiraTicketId env bs st1
    | Except.error e => Except.error e

/-- The working-tree status reported by the version-control collaborator.
`simple-git` reports the tree clean exactly when no file is changed in any
way, so cleanliness is derived from the three lists. -/
structure RepoStatus where
  staged : List String
  conflicted : List String
  modified : List String

/-- The tree is clean when no staged, conflicted or otherwise modified file
exists. -/
def RepoStatus.isClean (s : RepoStatus) : Bool :=
  s.staged.isEmpty && s.conflicted.isEmpty && s.modified.isEmpty

/-- The command-line options of the run that the modelled control flow
reads: positional path filters, the force/yes auto-accept aliases, the
skip-token-safety flag (option `-u` in the source) and the push flag.
Display-only options (silent, thinking, history, pr, jira) only affect
external collaborators or logging. -/
structure RunConfig where
  args : List String := []
  force : Bool := false
  yes : Bool := false
  skipTokenCheck : Bool := false
  push : Bool := false

/-- The observable outcome of a run: process exit code, the final value of
the applied-commit counter, the version-control effects in order, whether
the diff and diff summary were computed, and how many proposals were
processed (confirmations asked). -/
structure RunResult where
  exitCode : Nat
  commitCount : Nat
  effects : List GitEffect
  diffComputed : Bool
  proposalsProcessed : Nat
deriving DecidableEq

/-- The post-commit stage of `main`: the pull-request flow is entered only
when at least one commit was made and neither force nor yes was set; the
push runs whenever the push option is set.  Both are external
collaborators, modelled as single effects. -/
def postCommitEffects (cfg : RunConfig) (commitCount : Nat) : List GitEffect :=
  (if 0 < commitCount && !cfg.force && !cfg.yes then [GitEffect.pullRequest] else [])
    ++ (if cfg.push then [GitEffect.push] else [])

/-- The entry-point control flow of `main` from the repository check to
termination: not-a-repo exits 1; a clean tree exits 0; merge conflicts
exit 1; staged files combined with explicit path filters exit 1 — all
before the diff or diff summary is computed.  Then the token-risk gate may
end the run with exit 0 when the user declines.  Then the commit loop runs
over the streamed batches; its failure exits 1, otherwise the post-commit
stage runs and the process exits 0 (with or without commits).  The Jira
ticket id (extracted from the branch name before the status checks) and
the prompt token count are inputs. -/
def mainRun (cfg : RunConfig) (isRepo : Bool) (status : RepoStatus)
    (jiraTicketId : Option String) (tokenCount : Nat)
    (batches : List (List CommitProposal)) (env : LoopEnv) : RunResult :=
  if !isRepo then
    { exitCode := 1, commitCount := 0, effects := [], diffComputed := false
      proposalsProcessed := 0 }
  else if status.isClean then
    { exitCode := 0, commitCount := 0, effects := [], diffComputed := false
      proposalsProcessed := 0 }
  else if 0 < status.conflicted.length then
    { exitCode := 1, commitCount := 0, effects := [], diffComputed := false
      proposalsProcessed := 0 }
  else if 0 < cfg.args.length && 0 < status.staged.length then
    { exitCode := 1, commitCount := 0, effects := [], diffComputed := false
      proposalsProcessed := 0 }
  else
    let category := categorizeTokenCount tokenCount
    if category.needsConfirmation && !cfg.skipTokenCheck && !env.tokenAnswer then
      { exitCode := 0, commitCount := 0, effects := [], diffComputed := true
        proposalsProcessed := 0 }
    else
      match runBatches jiraTicketId env batches
          { commitCount := 0, effects := [], confirms := 0 } with
      | Except.error (st, _) =>
        { exitCode := 1, commitCount := st.commitCount, effects := st.effects
          diffComputed := true, proposalsProcessed := st.confirms }
      | Except.ok st =>
        { exitCode := 0, commitCount := st.commitCount
          effects := st.effects ++ postCommitEffects cfg st.commitCount
          diffComputed := true, proposalsProcessed := st.confirms }

/-- The effects the loop performs for an index-annotated run of proposals
when every version-control operation succeeds: an accepted proposal stages
its files and creates one commit, a declined one does nothing. -/
def acceptedEffects (jiraTicketId : Option String) (env : LoopEnv)
    (ips : List (Nat × CommitProposal)) : List GitEffect :=
  ips.flatMap fun ip =>
    if env.accept ip.1 then
      [GitEffect.add ip.2.files,
       GitEffect.commit (persistedMessage ip.2 jiraTicketId) ip.2.files]
    else []

/-- The number of accepted proposals among an index-annotated list. -/
def acceptedCount (env : LoopEnv) (ips : List (Nat × CommitProposal)) : Nat :=
  ips.countP fun ip => env.accept ip.1

lemma strLengthPos (s : String) : 0 < s.length ↔ s ≠ "" := by
  rw [show s.length = s.data.length from rfl, List.length_pos, ne_eq, ne_eq,
    String.ext_iff]

lemma riskRank_categorize (n : Nat) :
    riskRank (categorizeTokenCount n) =
      if n < 5000 then 0
      else if n < 15000 then 1
      else if n < 50000 then 2
      else if n < 100000 then 3
      else 4 := by
  unfold categorizeTokenCount
  split_ifs <;> rfl

/-- Claim C7: the token-count classification is monotonic in risk (a lower
count never gets a strictly higher tier), counts below the lowest
threshold (5000) never request confirmation, and counts at or above the
highest threshold (100000) always do. -/
theorem tokenRisk_monotone_and_thresholds :
    (∀ a b : Nat, a ≤ b →
      riskRank (categorizeTokenCount a) ≤ riskRank (categorizeTokenCount b))
    ∧ (∀ n : Nat, n < 5000 → (categorizeTokenCount n).needsConfirmation = false)
    ∧ (∀ n : Nat, 100000 ≤ n → (categorizeTokenCount n).needsConfirmation = true) := by
  refine ⟨?_, ?_, ?_⟩
  · intro a b hab
    rw [riskRank_categorize, riskRank_categorize]
    split_ifs <;> omega
  · intro n hn
    unfold categorizeTokenCount
    split_ifs <;> first | rfl | omega
  · intro n hn
    unfold categorizeTokenCount
    split_ifs <;> first | rfl | omega

/-- Witness for claim C7 at concrete counts 3 and 100001. -/
theorem tokenRisk_monotone_and_thresholds_witness :
    riskRank (categorizeTokenCount 3) ≤ riskRank (categorizeTokenCount 100001)
    ∧ (categorizeTokenCount 4999).needsConfirmation = false
    ∧ (categorizeTokenCount 100000).needsConfirmation = true :=
  ⟨tokenRisk_monotone_and_thresholds.1 3 100001 (by decide),
   tokenRisk_monotone_and_thresholds.2.1 4999 (by decide),
   tokenRisk_monotone_and_thresholds.2.2 100000 (by decide)⟩

/-- Claim C8: with staged files present and explicit path filter arguments,
the run aborts with exit code 1 and the diff and diff summary are never
computed, whatever the rest of the environment. -/
theorem staged_plus_paths_aborts :
    ∀ (cfg : RunConfig) (isRepo : Bool) (status : RepoStatus)
      (jiraTicketId : Option String) (tokenCount : Nat)
      (batches : List (List CommitProposal)) (env : LoopEnv),
      status.staged ≠ [] → cfg.args ≠ [] →
      (mainRun cfg isRepo status jiraTicketId tokenCount batches env).exitCode = 1
      ∧ (mainRun cfg isRepo status jiraTicketId tokenCount batches env).diffComputed
          = false := by
  intro cfg isRepo status jiraTicketId tokenCount batches env hstaged hargs
  have hs : status.staged.isEmpty = false := List.isEmpty_eq_false.mpr hstaged
  have hclean : status.isClean = false := by
    unfold RepoStatus.isClean
    rw [hs]
    rfl
  have hboth : (0 < cfg.args.length && 0 < status.staged.length) = true := by
    rw [Bool.and_eq_true]
    exact ⟨decide_eq_true (List.length_pos.mpr hargs),
      decide_eq_true (List.length_pos.mpr hstaged)⟩
  unfold mainRun
  cases isRepo with
  | false => exact ⟨rfl, rfl⟩
  | true =>
    split_ifs <;> first | exact ⟨rfl, rfl⟩ | simp_all

/-- Witness for claim C8 at a concrete configuration. -/
theorem staged_plus_paths_aborts_witness :
    (mainRun { args := ["src/a.ts"] } true
        ⟨["b.ts"], [], []⟩ none 10 []
        ⟨fun _ => true, fun _ => true, fun _ => true, true⟩).exitCode = 1
    ∧ (mainRun { args := ["src/a.ts"] } true
        ⟨["b.ts"], [], []⟩ none 10 []
        ⟨fun _ => true, fun _ => true, fun _ => true, true⟩).diffComputed = false :=
  staged_plus_paths_aborts { args := ["src/a.ts"] } true
    ⟨["b.ts"], [], []⟩ none 10 []
    ⟨fun _ => true, fun _ => true, fun _ => true, true⟩
    (by decide) (by decide)

lemma startsWithL_nil_true (l : List Char) : startsWithL l [] = true := by
  cases l <;> rfl

lemma startsWithL_append_self : ∀ p r : List Char, startsWithL (p ++ r) p = true
  | [], r => by
    simpa using startsWithL_nil_true r
  | c :: ps, r => by
    simp only [List.cons_append, startsWithL, beq_self_eq_true, Bool.true_and]
    exact startsWithL_append_self ps r

lemma strStartsWith_append (p r : String) : strStartsWith (p ++ r) p = true := by
  unfold strStartsWith
  rw [String.data_append]
  exact startsWithL_append_self p.data r.data

lemma strStartsWith_empty (s : String) : strStartsWith s "" = true :=
  startsWithL_nil_true s.data

lemma buildCommitMessages_none_commitMessage (c : CommitProposal) :
    (buildCommitMessages c none).commitMessage =
      if strStartsWith (decapitalizeFirstLetter c.description) (conventionalPfx c)
      then decapitalizeFirstLetter c.description
      else
        (if 0 < (conventionalPfx c).length then conventionalPfx c ++ ": " else "")
          ++ decapitalizeFirstLetter c.description := by
  simp only [buildCommitMessages, conventionalPfx]
  cases hsw : strStartsWith (decapitalizeFirstLetter c.description)
      (c.type
        ++ (match c.scope with
            | some sc => if 0 < sc.length then "(" ++ sc ++ ")" else ""
            | none => "")
        ++ (if c.breaking then "!" else "")) <;>
    simp [hsw]

lemma buildCommit_startsWith_drop (c : CommitProposal)
    (h : strStartsWith (decapitalizeFirstLetter c.description) (conventionalPfx c)
      = true) :
    (buildCommitMessages c none).commitMessage =
      decapitalizeFirstLetter c.description := by
  rw [buildCommitMessages_none_commitMessage, if_pos h]

/-- Claim C10: in the non-Jira format the redundancy check drops the
computed prefix whenever the decapitalized description merely starts with
the prefix string, with no separator or word-boundary requirement. -/
theorem pfx_dropped_on_bare_textual_match :
    ∀ c : CommitProposal,
      strStartsWith (decapitalizeFirstLetter c.description) (conventionalPfx c)
          = true →
      (buildCommitMessages c none).commitMessage =
        decapitalizeFirstLetter c.description :=
  fun c h => buildCommit_startsWith_drop c h

/-- Witness for claim C10: type feat with description "Feature flags added"
yields the bare subject "feature flags added", which contains no colon and
hence no "feat: " type marker at all. -/
theorem pfx_dropped_on_bare_textual_match_witness :
    (buildCommitMessages ⟨"feat", none, "Feature flags added", false, none, [], []⟩
        none).commitMessage = "feature flags added"
    ∧ ':' ∉ "feature flags added".data := by
  constructor
  · have h := pfx_dropped_on_bare_textual_match
      ⟨"feat", none, "Feature flags added", false, none, [], []⟩ (by decide)
    rw [h]
    decide
  · decide

/-- Claim C4: without a Jira ticket the subject line is the conventional
form `type(scope)!: description` (scope parenthesized only when present
and nonempty, bang only when breaking, description decapitalized), and the
formatting is idempotent on the prefix-redundancy rule: when the
decapitalized description already equals the computed prefix followed by a
remainder, the emitted subject is exactly that string, the prefix never
prepended a second time. -/
theorem conventional_subject_idempotent :
    ∀ c : CommitProposal,
      (strStartsWith (decapitalizeFirstLetter c.description) (conventionalPfx c)
            = false →
        (buildCommitMessages c none).commitMessage =
          conventionalPfx c ++ ": " ++ decapitalizeFirstLetter c.description)
      ∧ (c.scope = none → c.breaking = false → conventionalPfx c = c.type)
      ∧ (∀ sc : String, 0 < sc.length → c.breaking = true →
          conventionalPfx { c with scope := some sc } =
            c.type ++ "(" ++ sc ++ ")" ++ "!")
      ∧ (∀ rest : String,
          decapitalizeFirstLetter c.description = conventionalPfx c ++ rest →
          (buildCommitMessages c none).commitMessage = conventionalPfx c ++ rest) := by
  intro c
  refine ⟨?_, ?_, ?_, ?_⟩
  · intro h
    have hne : conventionalPfx c ≠ "" := by
      intro e
      rw [e, strStartsWith_empty] at h
      simp at h
    have hlen : 0 < (conventionalPfx c).length := (strLengthPos _).mpr hne
    rw [buildCommitMessages_none_commitMessage, if_neg (by simp [h]),
      if_pos hlen]
  · intro hsc hbr
    simp [conventionalPfx, hsc, hbr, String.append_empty]
  · intro sc hsc hbr
    simp [conventionalPfx, hsc, hbr, String.append_assoc]
  · intro rest h
    have hsw : strStartsWith (decapitalizeFirstLetter c.description)
        (conventionalPfx c) = true := by
      rw [h]
      exact strStartsWith_append _ _
    rw [buildCommit_startsWith_drop c hsw, h]

/-- Witness for claim C4 at two concrete proposals: one where the prefix is
prepended and one where the description already carries it. -/
theorem conventional_subject_idempotent_witness :
    (buildCommitMessages ⟨"feat", some "ui", "Adds dark mode", true, none, [], []⟩
        none).commitMessage = "feat(ui)!: adds dark mode"
    ∧ (buildCommitMessages ⟨"fix", none, "Fix: typo", false, none, [], []⟩
        none).commitMessage = "fix: typo" := by
  constructor
  · have h := (conventional_subject_idempotent
      ⟨"feat", some "ui", "Adds dark mode", true, none, [], []⟩).1 (by decide)
    rw [h]
    decide
  · have h := (conventional_subject_idempotent
      ⟨"fix", none, "Fix: typo", false, none, [], []⟩).2.2.2 ": typo" (by decide)
    rw [h]
    decide

lemma dropWhile_append_of_forall {p : Char → Bool} :
    ∀ l₁ l₂ : List Char, (∀ a ∈ l₁, p a = true) →
      (l₁ ++ l₂).dropWhile p = l₂.dropWhile p
  | [], _, _ => by simp
  | a :: l₁, l₂, h => by
    rw [List.cons_append, List.dropWhile_cons, if_pos (h a (by simp))]
    exact dropWhile_append_of_forall l₁ l₂ fun b hb => h b (by simp [hb])

lemma collapseWsAux_true_skips_run (repl : Char) :
    ∀ run rest : List Char, (∀ ch ∈ run, ch.isWhitespace = true) →
      collapseWsAux repl true (run ++ rest) = collapseWsAux repl true rest
  | [], _, _ => by simp
  | a :: run, rest, hrun => by
    rw [List.cons_append, collapseWsAux, if_pos (hrun a (by simp)),
      if_pos rfl, List.nil_append]
    exact collapseWsAux_true_skips_run repl run rest
      fun b hb => hrun b (by simp [hb])

lemma collapseWsAux_true_eq_false_of_fixed (repl : Char) (rest : List Char)
    (hrest : rest.dropWhile Char.isWhitespace = rest) :
    collapseWsAux repl true rest = collapseWsAux repl false rest := by
  cases rest with
  | nil => rfl
  | cons c cs =>
    have hc : c.isWhitespace = false := by
      by_contra hcc
      rw [List.dropWhile_cons, if_pos (by revert hcc; cases c.isWhitespace <;>
        simp)] at hrest
      have := congrArg List.length hrest
      simp at this
      have := (List.dropWhile_sublist (l := cs) Char.isWhitespace).length_le
      omega
    simp only [collapseWsAux, if_neg (by simp [hc] : ¬c.isWhitespace = true)]

lemma collapseWhitespaceRuns_one_run (repl : Char) :
    ∀ (w run rest : List Char),
      (∀ ch ∈ w, ch.isWhitespace = false) → run ≠ [] →
      (∀ ch ∈ run, ch.isWhitespace = true) →
      rest.dropWhile Char.isWhitespace = rest →
      collapseWhitespaceRuns repl (w ++ run ++ rest) =
        w ++ repl :: collapseWhitespaceRuns repl rest
  | [], run, rest, _, hne, hrun, hrest => by
    cases run with
    | nil => exact absurd rfl hne
    | cons a run =>
      have haw : a.isWhitespace = true := hrun a (by simp)
      simp only [List.nil_append, List.cons_append, collapseWhitespaceRuns,
        collapseWsAux, haw, if_true, Bool.false_eq_true, if_false,
        List.singleton_append, List.append_eq]
      rw [collapseWsAux_true_skips_run repl run rest
          (fun b hb => hrun b (by simp [hb])),
        collapseWsAux_true_eq_false_of_fixed repl rest hrest]
  | c :: w, run, rest, hw, hne, hrun, hrest => by
    have hcw : c.isWhitespace = false := hw c (by simp)
    simp only [List.cons_append, collapseWhitespaceRuns, collapseWsAux, hcw,
      Bool.false_eq_true, if_false]
    exact congrArg (c :: ·)
      (collapseWhitespaceRuns_one_run repl w run rest
        (fun b hb => hw b (by simp [hb])) hne hrun hrest)

/-- Claim C3: with a Jira ticket the subject line is
`{ticketId}-{type}{!}-{description}`, the description decapitalized and
its whitespace runs collapsed to single hyphens; the scope is discarded;
the short display line equals the subject; a present body and present
footers are appended to the persisted commit message as trailing
paragraphs (the footers each on their own line) but not to the display
line.  The final conjunct characterizes the hyphen collapse: one maximal
internal whitespace run becomes exactly one hyphen. -/
theorem jira_subject_format :
    ∀ (c : CommitProposal) (t : String),
      (buildCommitMessages c (some t)).commitMessage =
          t ++ "-" ++ c.type ++ (if c.breaking then "!" else "") ++ "-"
            ++ replaceWhitespaceWithHyphens (decapitalizeFirstLetter c.description)
      ∧ (buildCommitMessages c (some t)).displayMessage =
          (buildCommitMessages c (some t)).commitMessage
      ∧ (∀ sc : Option String,
          buildCommitMessages { c with scope := sc } (some t) =
            buildCommitMessages c (some t))
      ∧ (∀ b : String, c.body = some b → b ≠ "" → c.footers ≠ [] →
          persistedMessage c (some t) =
            (buildCommitMessages c (some t)).commitMessage ++ "\n\n" ++ b
              ++ "\n\n" ++ joinWith "\n" c.footers)
      ∧ (∀ (w run rest : List Char),
          (∀ ch ∈ w, ch.isWhitespace = false) → run ≠ [] →
          (∀ ch ∈ run, ch.isWhitespace = true) →
          rest.dropWhile Char.isWhitespace = rest →
          collapseWhitespaceRuns '-' (w ++ run ++ rest) =
            w ++ '-' :: collapseWhitespaceRuns '-' rest) := by
  intro c t
  refine ⟨?_, rfl, ?_, ?_, ?_⟩
  · simp [buildCommitMessages, String.append_assoc]
  · intro sc
    simp [buildCommitMessages]
  · intro b hb hbne hfne
    have hblen : 0 < b.length := (strLengthPos b).mpr hbne
    have hflen : 0 < c.footers.length := List.length_pos.mpr hfne
    simp only [persistedMessage, hb, if_pos hblen, if_pos hflen,
      String.append_assoc]
  · exact collapseWhitespaceRuns_one_run '-'

/-- Witness for claim C3 at a concrete proposal and ticket. -/
theorem jira_subject_format_witness :
    (buildCommitMessages
        ⟨"feat", some "ui", "Fix  login flow", true, some "why", ["Ref: X"], ["a.ts"]⟩
        (some "PROJ-123")).commitMessage = "PROJ-123-feat!-fix-login-flow"
    ∧ persistedMessage
        ⟨"feat", some "ui", "Fix  login flow", true, some "why", ["Ref: X"], ["a.ts"]⟩
        (some "PROJ-123")
        = "PROJ-123-feat!-fix-login-flow\n\nwhy\n\nRef: X"
    ∧ collapseWhitespaceRuns '-' (['a'] ++ [' ', '\t'] ++ ['b']) = ['a', '-', 'b'] := by
  refine ⟨?_, ?_, ?_⟩
  · have h := (jira_subject_format
      ⟨"feat", some "ui", "Fix  login flow", true, some "why", ["Ref: X"], ["a.ts"]⟩
      "PROJ-123").1
    rw [h]
    decide
  · have h := (jira_subject_format
      ⟨"feat", some "ui", "Fix  login flow", true, some "why", ["Ref: X"], ["a.ts"]⟩
      "PROJ-123").2.2.2.1 "why" rfl (by decide) (by decide)
    rw [h]
    decide
  · have h := (jira_subject_format
      ⟨"feat", none, "x", false, none, [], []⟩ "T-1").2.2.2.2
      ['a'] [' ', '\t'] ['b'] (by decide) (by decide) (by decide) (by decide)
    rw [h]
    decide

/-- Claim C5 counterexample: for a proposal whose body exceeds 80 columns,
the message handed to `git.commit` is not the claimed subject plus
word-wrapped body: the body is persisted verbatim, unwrapped. -/
theorem persisted_message_not_wrapped_cex :
    persistedMessage
        ⟨"docs", none, "Update readme", false,
          some "aaaaaaaaaaaaaaaaaaaaaaaaaaaaaaaaaaaaaaaa bbbbbbbbbbbbbbbbbbbbbbbbbbbbbbbbbbbbbbbb",
          ["Refs: 1"], ["README.md"]⟩ none
      ≠ specPersistedMessage
        ⟨"docs", none, "Update readme", false,
          some "aaaaaaaaaaaaaaaaaaaaaaaaaaaaaaaaaaaaaaaa bbbbbbbbbbbbbbbbbbbbbbbbbbbbbbbbbbbbbbbb",
          ["Refs: 1"], ["README.md"]⟩ none := by
  decide

/-- Claim C5 (amended): the persisted commit message is the subject line,
then — if a body is present — a blank line and the body verbatim (the
80-column greedy word-wrap of the body applies only to its terminal
display, not to the persisted message), then — if footers are present — a
blank line and each footer on its own line. -/
theorem persisted_message_shape :
    ∀ (c : CommitProposal) (jiraTicketId : Option String),
      persistedMessage c jiraTicketId =
        (buildCommitMessages c jiraTicketId).commitMessage
          ++ (match c.body with
              | some b => if 0 < b.length then "\n\n" ++ b else ""
              | none => "")
          ++ (if 0 < c.footers.length then "\n\n" ++ joinWith "\n" c.footers
              else "") := by
  intro c jiraTicketId
  cases hb : c.body with
  | none =>
    simp only [persistedMessage, hb]
    split_ifs <;> simp [String.append_assoc, String.append_empty]
  | some b =>
    simp only [persistedMessage, hb]
    split_ifs <;> simp [String.append_assoc, String.append_empty]

lemma joinWith_cons_of_ne_nil (sep x : String) :
    ∀ l : List String, l ≠ [] →
      joinWith sep (x :: l) = x ++ sep ++ joinWith sep l
  | [], h => absurd rfl h
  | _ :: _, _ => rfl

lemma joinSp_merge (a b : String) :
    ∀ l : List String,
      joinWith " " ((a ++ " " ++ b) :: l) = joinWith " " (a :: b :: l)
  | [] => rfl
  | c :: l => by
    show (a ++ " " ++ b) ++ " " ++ joinWith " " (c :: l)
      = a ++ " " ++ (b ++ " " ++ joinWith " " (c :: l))
    simp [String.append_assoc]

lemma wrapLoop_acc (maxWidth : Nat) :
    ∀ (ws : List String) (lines : List String) (currentLine : String),
      wrapLoop maxWidth lines currentLine ws =
        lines ++ wrapLoop maxWidth [] currentLine ws := by
  intro ws
  induction ws with
  | nil =>
    intro lines currentLine
    simp only [wrapLoop]
    split_ifs <;> simp
  | cons w ws ih =>
    intro lines currentLine
    simp only [wrapLoop]
    split_ifs
    · rw [ih (lines ++ [currentLine]) w, ih ([] ++ [currentLine]) w,
        List.append_assoc]
      simp
    · exact ih lines _
    · rw [ih (lines ++ [w]) currentLine, ih ([] ++ [w]) currentLine,
        List.append_assoc]
      simp
    · exact ih lines _

lemma wrapLoop_ne_nil (maxWidth : Nat) :
    ∀ (ws : List String) (currentLine : String),
      (0 < currentLine.length ∨ ∃ p ∈ ws, 0 < p.length) →
      wrapLoop maxWidth [] currentLine ws ≠ [] := by
  intro ws
  induction ws with
  | nil =>
    intro currentLine h
    rcases h with h | ⟨p, hp, _⟩
    · simp [wrapLoop, if_pos h]
    · exact absurd hp (List.not_mem_nil p)
  | cons w ws ih =>
    intro currentLine h
    simp only [wrapLoop]
    split_ifs with hc h2 h3
    · rw [wrapLoop_acc]
      simp
    · refine ih _ (Or.inl ?_)
      rw [String.length_append, String.length_append]
      omega
    · rw [wrapLoop_acc]
      simp
    · refine ih _ ?_
      rcases h with hcur | ⟨p, hp, hplen⟩
      · exact absurd hcur hc
      · rcases List.mem_cons.mp hp with rfl | hptl
        · left
          rw [String.length_append, String.length_append]
          omega
        · exact Or.inr ⟨p, hptl, hplen⟩

lemma wrapLoop_join_pos (maxWidth : Nat) :
    ∀ (ws : List String) (currentLine : String),
      0 < currentLine.length → (∀ p ∈ ws, 0 < p.length) →
      joinWith " " (wrapLoop maxWidth [] currentLine ws) =
        joinWith " " (currentLine :: ws) := by
  intro ws
  induction ws with
  | nil =>
    intro currentLine hcur _
    simp [wrapLoop, if_pos hcur]
  | cons w ws ih =>
    intro currentLine hcur hws
    have hw : 0 < w.length := hws w (by simp)
    have hwstl : ∀ p ∈ ws, 0 < p.length := fun p hp => hws p (by simp [hp])
    simp only [wrapLoop, if_pos hcur]
    split_ifs with h1
    · rw [wrapLoop_acc, List.nil_append, List.singleton_append,
        joinWith_cons_of_ne_nil _ _ _
          (wrapLoop_ne_nil maxWidth ws w (Or.inl hw)),
        ih w hw hwstl,
        joinWith_cons_of_ne_nil _ _ (w :: ws) (by simp)]
    · rw [ih (currentLine ++ " " ++ w)
          (by rw [String.length_append]; omega) hwstl,
        joinSp_merge]

lemma wrapLoop_join_empty (maxWidth : Nat) :
    ∀ ws : List String, (∀ p ∈ ws, 0 < p.length) →
      joinWith " " (wrapLoop maxWidth [] "" ws) = joinWith " " ws := by
  intro ws
  induction ws with
  | nil =>
    intro _
    rfl
  | cons w ws ih =>
    have h0 : ¬0 < ("" : String).length := by decide
    intro hws
    have hw : 0 < w.length := hws w (by simp)
    have hwstl : ∀ p ∈ ws, 0 < p.length := fun p hp => hws p (by simp [hp])
    simp only [wrapLoop, if_neg h0]
    split_ifs with h1
    · rw [wrapLoop_acc, List.nil_append, List.singleton_append]
      cases ws with
      | nil => rfl
      | cons q ws' =>
        have hq : 0 < q.length := hwstl q (by simp)
        rw [joinWith_cons_of_ne_nil _ _ _
            (wrapLoop_ne_nil maxWidth (q :: ws') ""
              (Or.inr ⟨q, by simp, hq⟩)),
          ih hwstl, joinWith_cons_of_ne_nil _ _ (q :: ws') (by simp)]
    · rw [show ("" : String) ++ "" ++ w = w from rfl]
      exact wrapLoop_join_pos maxWidth ws w hw hwstl

lemma splitOnSpaceChars_ne_nil : ∀ l : List Char, splitOnSpaceChars l ≠ [] := by
  intro l
  cases l with
  | nil => simp [splitOnSpaceChars]
  | cons c cs =>
    simp only [splitOnSpaceChars]
    split_ifs
    · simp
    · cases splitOnSpaceChars cs <;> simp

lemma mk_cons_append (c : Char) (w : List Char) (r : String) :
    String.mk (c :: w) ++ r = String.mk [c] ++ (String.mk w ++ r) := by
  apply String.ext
  simp [String.data_append]

lemma joinWith_cons_char (c : Char) (w : List Char) :
    ∀ R : List String,
      joinWith " " (String.mk (c :: w) :: R) =
        String.mk [c] ++ joinWith " " (String.mk w :: R)
  | [] => by
    apply String.ext
    simp [joinWith, String.data_append]
  | x :: R => by
    show String.mk (c :: w) ++ " " ++ joinWith " " (x :: R)
      = String.mk [c] ++ (String.mk w ++ " " ++ joinWith " " (x :: R))
    rw [String.append_assoc, mk_cons_append, String.append_assoc]

lemma joinWith_split_chars :
    ∀ l : List Char,
      joinWith " " ((splitOnSpaceChars l).map String.mk) = String.mk l := by
  intro l
  induction l with
  | nil => rfl
  | cons c cs ih =>
    by_cases hc : c = ' '
    · subst hc
      rw [show splitOnSpaceChars (' ' :: cs) = [] :: splitOnSpaceChars cs from by
          simp [splitOnSpaceChars],
        List.map_cons,
        joinWith_cons_of_ne_nil " " (String.mk [])
          ((splitOnSpaceChars cs).map String.mk)
          (fun hmap =>
            splitOnSpaceChars_ne_nil cs (List.map_eq_nil_iff.mp hmap)),
        ih]
      apply String.ext
      simp [String.data_append]
    · rw [show splitOnSpaceChars (c :: cs) =
          (match splitOnSpaceChars cs with
           | [] => [[c]]
           | w :: ws => (c :: w) :: ws) from by
          simp [splitOnSpaceChars, hc]]
      rcases hsplit : splitOnSpaceChars cs with _ | ⟨w, ws⟩
      · exact absurd hsplit (splitOnSpaceChars_ne_nil cs)
      · rw [hsplit] at ih
        simp only [List.map_cons] at ih ⊢
        rw [joinWith_cons_char, ih]
        apply String.ext
        simp [String.data_append]

/-- Rejoining the space-split words of a text with single spaces gives back
the text itself. -/
lemma joinWith_splitWords (s : String) : joinWith " " (splitWords s) = s := by
  rw [splitWords, joinWith_split_chars]

lemma wrapLoop_width (maxWidth : Nat) :
    ∀ (ws lines : List String) (currentLine : String) (allW : List String),
      (∀ l ∈ lines, l.length ≤ maxWidth ∨ l ∈ allW) →
      (currentLine.length ≤ maxWidth ∨ currentLine ∈ allW) →
      (∀ p ∈ ws, p ∈ allW) →
      ∀ line ∈ wrapLoop maxWidth lines currentLine ws,
        line.length ≤ maxWidth ∨ line ∈ allW := by
  intro ws
  induction ws with
  | nil =>
    intro lines currentLine allW hlines hcur _ line hline
    simp only [wrapLoop] at hline
    split_ifs at hline with h
    · rcases List.mem_append.mp hline with h1 | h1
      · exact hlines line h1
      · rw [List.mem_singleton.mp h1]
        exact hcur
    · exact hlines line hline
  | cons w ws ih =>
    intro lines currentLine allW hlines hcur hws line hline
    have hwmem : w ∈ allW := hws w (by simp)
    have hwstl : ∀ p ∈ ws, p ∈ allW := fun p hp => hws p (by simp [hp])
    have hpush : ∀ x : String, (x.length ≤ maxWidth ∨ x ∈ allW) →
        ∀ l ∈ lines ++ [x], l.length ≤ maxWidth ∨ l ∈ allW := by
      intro x hx l hl
      rcases List.mem_append.mp hl with h3 | h3
      · exact hlines l h3
      · rw [List.mem_singleton.mp h3]
        exact hx
    simp only [wrapLoop] at hline
    split_ifs at hline with hc h2 h3
    · exact ih (lines ++ [currentLine]) w allW (hpush currentLine hcur)
        (Or.inr hwmem) hwstl line hline
    · refine ih lines _ allW hlines (Or.inl ?_) hwstl line hline
      rw [String.length_append, String.length_append]
      have : (" " : String).length = 1 := rfl
      omega
    · exact ih (lines ++ [w]) currentLine allW (hpush w (Or.inr hwmem))
        hcur hwstl line hline
    · refine ih lines _ allW hlines (Or.inl ?_) hwstl line hline
      rw [String.length_append, String.length_append]
      have : ("" : String).length = 0 := rfl
      omega

/-- Claim C6 counterexample: with the default width, the text "a  b"
(double space) wraps to a single line "a  b"; rejoining the produced lines
with single spaces yields "a  b", which is not the whitespace-normalized
original "a b".  Interior space runs that fit on one line survive the wrap
unchanged, so the round trip reproduces the original text, not its
normalization. -/
theorem wrap_roundtrip_cex :
    joinWith " " (wrapLines "a  b" 80) ≠ specWhitespaceNormalize "a  b" := by
  decide

/-- Claim C6 (amended): for every text whose space-split words are all
nonempty (no leading, trailing or consecutive spaces), rejoining the lines
produced by the word wrap with single spaces reproduces the original text
exactly; and, for every text and width, no produced line exceeds the
width unless it is a single word of the input that alone exceeds it. -/
theorem wrap_roundtrip_and_width :
    ∀ (text : String) (maxWidth : Nat),
      ((∀ p ∈ splitWords text, p ≠ "") →
        joinWith " " (wrapLines text maxWidth) = text)
      ∧ (∀ line ∈ wrapLines text maxWidth,
          line.length ≤ maxWidth
          ∨ (line ∈ splitWords text ∧ maxWidth < line.length)) := by
  intro text maxWidth
  constructor
  · intro h
    have h' : ∀ p ∈ splitWords text, 0 < p.length :=
      fun p hp => (strLengthPos p).mpr (h p hp)
    rw [wrapLines, wrapLoop_join_empty maxWidth (splitWords text) h',
      joinWith_splitWords]
  · intro line hline
    have hw := wrapLoop_width maxWidth (splitWords text) [] ""
      (splitWords text) (by simp)
      (Or.inl (by rw [show ("" : String).length = 0 from rfl]
                  exact Nat.zero_le maxWidth))
      (fun p hp => hp) line hline
    rcases hw with h | h
    · exact Or.inl h
    · by_cases hlen : line.length ≤ maxWidth
      · exact Or.inl hlen
      · exact Or.inr ⟨h, by omega⟩

/-- Witness for claim C6 at the text "ab cd ef" and width 4. -/
theorem wrap_roundtrip_and_width_witness :
    joinWith " " (wrapLines "ab cd ef" 4) = "ab cd ef"
    ∧ (("ab" : String).length ≤ 4
        ∨ ("ab" ∈ splitWords "ab cd ef" ∧ 4 < ("ab" : String).length)) :=
  ⟨(wrap_roundtrip_and_width "ab cd ef" 4).1 (by decide),
   (wrap_roundtrip_and_width "ab cd ef" 4).2 "ab" (by decide)⟩

lemma acceptedCount_cons (env : LoopEnv) (i : Nat) (p : CommitProposal)
    (ips : List (Nat × CommitProposal)) :
    acceptedCount env ((i, p) :: ips) =
      acceptedCount env ips + (if env.accept i then 1 else 0) := by
  simp [acceptedCount, List.countP_cons]

lemma acceptedEffects_cons (jiraTicketId : Option String) (env : LoopEnv)
    (i : Nat) (p : CommitProposal) (ips : List (Nat × CommitProposal)) :
    acceptedEffects jiraTicketId env ((i, p) :: ips) =
      (if env.accept i then
        [GitEffect.add p.files,
         GitEffect.commit (persistedMessage p jiraTicketId) p.files]
      else []) ++ acceptedEffects jiraTicketId env ips := by
  simp only [acceptedEffects, List.flatMap_cons]

lemma applyOne_of_allOk (jiraTicketId : Option String) (env : LoopEnv)
    (p : CommitProposal) (st : LoopState)
    (hadd : env.addOk st.confirms = true)
    (hcommit : env.commitOk st.confirms = true) :
    applyOne jiraTicketId env p st =
      if env.accept st.confirms then
        Except.ok
          { commitCount := st.commitCount + 1
            effects := st.effects ++ [GitEffect.add p.files] ++
              [GitEffect.commit (persistedMessage p jiraTicketId) p.files]
            confirms := st.confirms + 1 }
      else
        Except.ok { st with confirms := st.confirms + 1 } := by
  simp only [applyOne, hadd, hcommit]
  split_ifs <;> rfl

lemma runBatch_append (jiraTicketId : Option String) (env : LoopEnv) :
    ∀ (a b : List CommitProposal) (st : LoopState),
      runBatch jiraTicketId env (a ++ b) st =
        match runBatch jiraTicketId env a st with
        | Except.ok st1 => runBatch jiraTicketId env b st1
        | Except.error e => Except.error e := by
  intro a
  induction a with
  | nil =>
    intro b st
    rfl
  | cons p a ih =>
    intro b st
    rw [List.cons_append]
    simp only [runBatch]
    cases applyOne jiraTicketId env p st with
    | ok st1 => exact ih b st1
    | error e => rfl

/-- Consuming the stream batch by batch equals consuming the flattened
stream of proposals: batches are processed strictly in order, each
proposal fully handled before the next. -/
lemma runBatches_eq_flatten (jiraTicketId : Option String) (env : LoopEnv) :
    ∀ (bs : List (List CommitProposal)) (st : LoopState),
      runBatches jiraTicketId env bs st =
        runBatch jiraTicketId env bs.flatten st := by
  intro bs
  induction bs with
  | nil =>
    intro st
    rfl
  | cons b bs ih =>
    intro st
    rw [List.flatten_cons, runBatch_append]
    simp only [runBatches]
    cases runBatch jiraTicketId env b st with
    | ok st1 => exact ih st1
    | error e => rfl

lemma runBatch_ok_char (jiraTicketId : Option String) (env : LoopEnv)
    (hadd : ∀ i, env.addOk i = true) (hcommit : ∀ i, env.commitOk i = true) :
    ∀ (ps : List CommitProposal) (st : LoopState),
      runBatch jiraTicketId env ps st =
        Except.ok
          { commitCount :=
              st.commitCount + acceptedCount env (List.enumFrom st.confirms ps)
            effects :=
              st.effects ++ acceptedEffects jiraTicketId env
                (List.enumFrom st.confirms ps)
            confirms := st.confirms + ps.length } := by
  intro ps
  induction ps with
  | nil =>
    intro st
    show Except.ok st = _
    simp [acceptedCount, acceptedEffects, List.enumFrom]
  | cons p ps ih =>
    intro st
    simp only [runBatch,
      applyOne_of_allOk jiraTicketId env p st (hadd st.confirms)
        (hcommit st.confirms)]
    rw [show List.enumFrom st.confirms (p :: ps) =
        (st.confirms, p) :: List.enumFrom (st.confirms + 1) ps from rfl,
      acceptedCount_cons, acceptedEffects_cons]
    cases haccept : env.accept st.confirms with
    | true =>
      rw [if_pos rfl]
      show runBatch jiraTicketId env ps _ = _
      rw [ih]
      refine congrArg Except.ok ?_
      simp only [LoopState.mk.injEq]
      refine ⟨by simp; omega, ?_, by simp [List.length_cons]; omega⟩
      simp [List.append_assoc]
    | false =>
      rw [if_neg (by simp)]
      show runBatch jiraTicketId env ps _ = _
      rw [ih]
      refine congrArg Except.ok ?_
      simp only [LoopState.mk.injEq]
      refine ⟨by simp, by simp, by simp [List.length_cons]; omega⟩

/-- Claim C1: when every version-control operation succeeds, the loop over
all streamed batches increments the applied-commit counter exactly once
per accepted proposal and never for a declined one; a declined proposal
contributes no version-control effect, and processing continues through
the whole stream (one confirmation per proposal); an accepted proposal
contributes exactly one staging and one commit effect, in stream order. -/
theorem counter_incremented_per_accepted_commit :
    ∀ (jiraTicketId : Option String) (env : LoopEnv)
      (batches : List (List CommitProposal)) (st : LoopState),
      (∀ i, env.addOk i = true) → (∀ i, env.commitOk i = true) →
      runBatches jiraTicketId env batches st =
        Except.ok
          { commitCount := st.commitCount +
              acceptedCount env (List.enumFrom st.confirms batches.flatten)
            effects := st.effects ++ acceptedEffects jiraTicketId env
              (List.enumFrom st.confirms batches.flatten)
            confirms := st.confirms + batches.flatten.length } := by
  intro jiraTicketId env batches st hadd hcommit
  rw [runBatches_eq_flatten]
  exact runBatch_ok_char jiraTicketId env hadd hcommit batches.flatten st

/-- Witness for claim C1: a two-batch stream in which the first proposal is
accepted and the second declined yields exactly one staging and one commit
effect, an applied-commit count of 1, and both proposals processed. -/
theorem counter_incremented_per_accepted_commit_witness :
    runBatches none
        ⟨fun i => i == 0, fun _ => true, fun _ => true, true⟩
        [[⟨"feat", none, "Add login", false, none, [], ["a.ts"]⟩],
         [⟨"fix", none, "Fix bug", false, none, [], ["b.ts"]⟩]]
        ⟨0, [], 0⟩ =
      Except.ok
        ⟨1,
         [GitEffect.add ["a.ts"], GitEffect.commit "feat: add login" ["a.ts"]],
         2⟩ := by
  have h := counter_incremented_per_accepted_commit none
    ⟨fun i => i == 0, fun _ => true, fun _ => true, true⟩
    [[⟨"feat", none, "Add login", false, none, [], ["a.ts"]⟩],
     [⟨"fix", none, "Fix bug", false, none, [], ["b.ts"]⟩]]
    ⟨0, [], 0⟩ (fun _ => rfl) (fun _ => rfl)
  rw [h]
  rfl

lemma runBatch_fail_char (jiraTicketId : Option String) (env : LoopEnv) :
    ∀ (ps : List CommitProposal) (st : LoopState) (j : Nat) (hj : j < ps.length),
      (∀ k, k < j →
        env.addOk (st.confirms + k) = true ∧ env.commitOk (st.confirms + k) = true) →
      env.accept (st.confirms + j) = true →
      (env.addOk (st.confirms + j) = false ∨ env.commitOk (st.confirms + j) = false) →
      runBatch jiraTicketId env ps st =
        Except.error
          ({ commitCount := st.commitCount +
              acceptedCount env (List.enumFrom st.confirms (ps.take j))
             effects := st.effects ++ acceptedEffects jiraTicketId env
                (List.enumFrom st.confirms (ps.take j))
              ++ (if env.addOk (st.confirms + j) then
                    [GitEffect.add (ps.get ⟨j, hj⟩).files]
                  else [])
             confirms := st.confirms + j + 1 },
           if env.addOk (st.confirms + j) then ApplyFailure.commitFailed
           else ApplyFailure.stageFailed) := by
  intro ps
  induction ps with
  | nil =>
    intro st j hj
    exact absurd hj (by simp)
  | cons p ps ih =>
    intro st j hj hprev haccept hfail
    cases j with
    | zero =>
      simp only [Nat.add_zero] at haccept hfail ⊢
      by_cases haddv : env.addOk st.confirms = true
      · have hcommitv : env.commitOk st.confirms = false := by
          rcases hfail with h | h
          · rw [haddv] at h
            exact absurd h (by simp)
          · exact h
        simp [runBatch, applyOne, haccept, haddv, hcommitv, acceptedCount,
          acceptedEffects, List.enumFrom]
      · have haddf : env.addOk st.confirms = false := by
          revert haddv
          cases env.addOk st.confirms <;> simp
        simp [runBatch, applyOne, haccept, haddf, acceptedCount,
          acceptedEffects, List.enumFrom]
    | succ j =>
      have hops0 := hprev 0 (by omega)
      simp only [Nat.add_zero] at hops0
      rw [show runBatch jiraTicketId env (p :: ps) st =
          (match applyOne jiraTicketId env p st with
           | Except.ok st1 => runBatch jiraTicketId env ps st1
           | Except.error e => Except.error e) from rfl,
        applyOne_of_allOk jiraTicketId env p st hops0.1 hops0.2]
      have hidx : ∀ m : Nat, st.confirms + 1 + m = st.confirms + (m + 1) := by
        omega
      cases haccv : env.accept st.confirms with
      | true =>
        rw [if_pos rfl]
        show runBatch jiraTicketId env ps
          { commitCount := st.commitCount + 1
            effects := st.effects ++ [GitEffect.add p.files] ++
              [GitEffect.commit (persistedMessage p jiraTicketId) p.files]
            confirms := st.confirms + 1 } = _
        rw [ih _ j (by simpa using hj)
          (fun k hk => by
            rw [hidx k]
            exact hprev (k + 1) (by omega))
          (by rw [hidx j]; exact haccept)
          (by rw [hidx j]; exact hfail)]
        simp only [hidx j]
        refine congrArg Except.error ?_
        refine Prod.ext ?_ rfl
        simp only [LoopState.mk.injEq]
        refine ⟨?_, ?_, by first | trivial | omega⟩
        · rw [show (p :: ps).take (j + 1) = p :: ps.take j from rfl,
            show List.enumFrom st.confirms (p :: ps.take j) =
              (st.confirms, p) :: List.enumFrom (st.confirms + 1) (ps.take j)
              from rfl,
            acceptedCount_cons, haccv]
          simp
          omega
        · rw [show (p :: ps).take (j + 1) = p :: ps.take j from rfl,
            show List.enumFrom st.confirms (p :: ps.take j) =
              (st.confirms, p) :: List.enumFrom (st.confirms + 1) (ps.take j)
              from rfl,
            acceptedEffects_cons, haccv,
            show (p :: ps).get ⟨j + 1, hj⟩ = ps.get ⟨j, by simpa using hj⟩
              from rfl]
          simp [List.append_assoc]
      | false =>
        rw [if_neg (by simp)]
        show runBatch jiraTicketId env ps { st with confirms := st.confirms + 1 }
          = _
        rw [ih _ j (by simpa using hj)
          (fun k hk => by
            rw [hidx k]
            exact hprev (k + 1) (by omega))
          (by rw [hidx j]; exact haccept)
          (by rw [hidx j]; exact hfail)]
        simp only [hidx j]
        refine congrArg Except.error ?_
        refine Prod.ext ?_ rfl
        simp only [LoopState.mk.injEq]
        refine ⟨?_, ?_, by first | trivial | omega⟩
        · rw [show (p :: ps).take (j + 1) = p :: ps.take j from rfl,
            show List.enumFrom st.confirms (p :: ps.take j) =
              (st.confirms, p) :: List.enumFrom (st.confirms + 1) (ps.take j)
              from rfl,
            acceptedCount_cons, haccv]
          simp
        · rw [show (p :: ps).take (j + 1) = p :: ps.take j from rfl,
            show List.enumFrom st.confirms (p :: ps.take j) =
              (st.confirms, p) :: List.enumFrom (st.confirms + 1) (ps.take j)
              from rfl,
            acceptedEffects_cons, haccv,
            show (p :: ps).get ⟨j + 1, hj⟩ = ps.get ⟨j, by simpa using hj⟩
              from rfl]
          simp

lemma mainRun_of_loop_error (cfg : RunConfig) (status : RepoStatus)
    (jiraTicketId : Option String) (tokenCount : Nat)
    (batches : List (List CommitProposal)) (env : LoopEnv)
    (st : LoopState) (r : ApplyFailure)
    (hclean : status.isClean = false) (hconf : status.conflicted = [])
    (hargs : cfg.args = [] ∨ status.staged = [])
    (htok : ((categorizeTokenCount tokenCount).needsConfirmation
      && !cfg.skipTokenCheck && !env.tokenAnswer) = false)
    (hrun : runBatches jiraTicketId env batches
      { commitCount := 0, effects := [], confirms := 0 } = Except.error (st, r)) :
    mainRun cfg true status jiraTicketId tokenCount batches env =
      { exitCode := 1, commitCount := st.commitCount, effects := st.effects
        diffComputed := true, proposalsProcessed := st.confirms } := by
  have h4 : (0 < cfg.args.length && 0 < status.staged.length) = false := by
    rcases hargs with h | h <;> simp [h]
  unfold mainRun
  rw [hclean, hconf, h4]
  simp only [Bool.not_true, Bool.false_eq_true, if_false, List.length_nil,
    Nat.lt_irrefl, htok, hrun]

lemma mainRun_of_loop_ok (cfg : RunConfig) (status : RepoStatus)
    (jiraTicketId : Option String) (tokenCount : Nat)
    (batches : List (List CommitProposal)) (env : LoopEnv) (st : LoopState)
    (hclean : status.isClean = false) (hconf : status.conflicted = [])
    (hargs : cfg.args = [] ∨ status.staged = [])
    (htok : ((categorizeTokenCount tokenCount).needsConfirmation
      && !cfg.skipTokenCheck && !env.tokenAnswer) = false)
    (hrun : runBatches jiraTicketId env batches
      { commitCount := 0, effects := [], confirms := 0 } = Except.ok st) :
    mainRun cfg true status jiraTicketId tokenCount batches env =
      { exitCode := 0, commitCount := st.commitCount
        effects := st.effects ++ postCommitEffects cfg st.commitCount
        diffComputed := true, proposalsProcessed := st.confirms } := by
  have h4 : (0 < cfg.args.length && 0 < status.staged.length) = false := by
    rcases hargs with h | h <;> simp [h]
  unfold mainRun
  rw [hclean, hconf, h4]
  simp only [Bool.not_true, Bool.false_eq_true, if_false, List.length_nil,
    Nat.lt_irrefl, htok, hrun]

/-- Claim C2: when staging or commit creation fails for the accepted
proposal at stream position j (all earlier operations having succeeded),
the run terminates with exit code 1 having processed exactly j + 1
proposals — none after the failing one — and its recorded effects are
exactly the stagings and commits of the earlier accepted proposals
(still present, not rolled back) plus, when only the commit failed, the
staging of the failing proposal; no unstage or rollback effect exists. -/
theorem apply_failure_fatal :
    ∀ (cfg : RunConfig) (status : RepoStatus) (jiraTicketId : Option String)
      (tokenCount : Nat) (batches : List (List CommitProposal)) (env : LoopEnv)
      (j : Nat) (hj : j < batches.flatten.length),
      status.isClean = false → status.conflicted = [] →
      (cfg.args = [] ∨ status.staged = []) →
      ((categorizeTokenCount tokenCount).needsConfirmation
        && !cfg.skipTokenCheck && !env.tokenAnswer) = false →
      (∀ k, k < j → env.addOk k = true ∧ env.commitOk k = true) →
      env.accept j = true →
      (env.addOk j = false ∨ env.commitOk j = false) →
      mainRun cfg true status jiraTicketId tokenCount batches env =
        { exitCode := 1
          commitCount :=
            acceptedCount env (List.enumFrom 0 (batches.flatten.take j))
          effects :=
            acceptedEffects jiraTicketId env
              (List.enumFrom 0 (batches.flatten.take j))
            ++ (if env.addOk j then
                  [GitEffect.add ((batches.flatten.get ⟨j, hj⟩)).files]
                else [])
          diffComputed := true
          proposalsProcessed := j + 1 } := by
  intro cfg status jiraTicketId tokenCount batches env j hj hclean hconf hargs
    htok hprev haccept hfail
  have hrun : runBatches jiraTicketId env batches
      { commitCount := 0, effects := [], confirms := 0 } =
      Except.error
        ({ commitCount := acceptedCount env
            (List.enumFrom 0 (batches.flatten.take j))
           effects := acceptedEffects jiraTicketId env
              (List.enumFrom 0 (batches.flatten.take j))
            ++ (if env.addOk j then
                  [GitEffect.add ((batches.flatten.get ⟨j, hj⟩)).files]
                else [])
           confirms := j + 1 },
         if env.addOk j then ApplyFailure.commitFailed
         else ApplyFailure.stageFailed) := by
    rw [runBatches_eq_flatten]
    have h := runBatch_fail_char jiraTicketId env batches.flatten
      { commitCount := 0, effects := [], confirms := 0 } j hj
      (by simpa using hprev) (by simpa using haccept) (by simpa using hfail)
    simpa using h
  rw [mainRun_of_loop_error cfg status jiraTicketId tokenCount batches env
    _ _ hclean hconf hargs htok hrun]

/-- Witness for claim C2: a three-batch stream where the first proposal is
accepted and committed and the commit of the second fails: the run exits
1, only two proposals are processed, the first commit remains. -/
theorem apply_failure_fatal_witness :
    mainRun { args := [] } true ⟨[], [], ["m.ts"]⟩ none 10
        [[⟨"feat", none, "Add login", false, none, [], ["a.ts"]⟩],
         [⟨"fix", none, "Fix bug", false, none, [], ["b.ts"]⟩],
         [⟨"docs", none, "Docs", false, none, [], ["c.ts"]⟩]]
        ⟨fun _ => true, fun _ => true, fun i => i == 0, true⟩ =
      { exitCode := 1
        commitCount := 1
        effects := [GitEffect.add ["a.ts"],
          GitEffect.commit "feat: add login" ["a.ts"],
          GitEffect.add ["b.ts"]]
        diffComputed := true
        proposalsProcessed := 2 } := by
  have h := apply_failure_fatal { args := [] } ⟨[], [], ["m.ts"]⟩ none 10
    [[⟨"feat", none, "Add login", false, none, [], ["a.ts"]⟩],
     [⟨"fix", none, "Fix bug", false, none, [], ["b.ts"]⟩],
     [⟨"docs", none, "Docs", false, none, [], ["c.ts"]⟩]]
    ⟨fun _ => true, fun _ => true, fun i => i == 0, true⟩
    1 (by decide) (by decide) (by decide) (Or.inl rfl) (by decide)
    (fun k hk => by
      have hk0 : k = 0 := by omega
      subst hk0
      exact ⟨rfl, rfl⟩)
    (by decide) (Or.inr (by decide))
  rw [h]
  rfl

lemma applyOne_ok_effects (jiraTicketId : Option String) (env : LoopEnv)
    (p : CommitProposal) (st st1 : LoopState)
    (h : applyOne jiraTicketId env p st = Except.ok st1) :
    st1.effects = st.effects ∨
    st1.effects = st.effects ++ [GitEffect.add p.files] ++
      [GitEffect.commit (persistedMessage p jiraTicketId) p.files] := by
  simp only [applyOne] at h
  split_ifs at h
  all_goals cases h
  all_goals simp

lemma runBatch_ok_effects_shape (jiraTicketId : Option String) (env : LoopEnv) :
    ∀ (ps : List CommitProposal) (st st1 : LoopState),
      runBatch jiraTicketId env ps st = Except.ok st1 →
      ∀ e ∈ st1.effects,
        e ∈ st.effects ∨ (∃ fs, e = GitEffect.add fs)
          ∨ (∃ m fs, e = GitEffect.commit m fs) := by
  intro ps
  induction ps with
  | nil =>
    intro st st1 h e he
    cases h
    exact Or.inl he
  | cons p ps ih =>
    intro st st1 h e he
    simp only [runBatch] at h
    cases happ : applyOne jiraTicketId env p st with
    | error e1 =>
      rw [happ] at h
      cases h
    | ok stm =>
      rw [happ] at h
      rcases ih stm st1 h e he with hmem | hshape | hshape
      · rcases applyOne_ok_effects jiraTicketId env p st stm happ with heq | heq
        · rw [heq] at hmem
          exact Or.inl hmem
        · rw [heq] at hmem
          rcases List.mem_append.mp hmem with h1 | h1
          · rcases List.mem_append.mp h1 with h2 | h2
            · exact Or.inl h2
            · exact Or.inr (Or.inl ⟨p.files, List.mem_singleton.mp h2⟩)
          · exact Or.inr (Or.inr ⟨persistedMessage p jiraTicketId, p.files,
              List.mem_singleton.mp h1⟩)
      · exact Or.inr (Or.inl hshape)
      · exact Or.inr (Or.inr hshape)

lemma pullRequest_mem_postCommitEffects (cfg : RunConfig) (n : Nat) :
    GitEffect.pullRequest ∈ postCommitEffects cfg n ↔
      (0 < n ∧ cfg.force = false ∧ cfg.yes = false) := by
  unfold postCommitEffects
  split_ifs with h1 h2 <;>
    simp_all [List.mem_append, Bool.and_eq_true, Bool.not_eq_true']

lemma push_mem_postCommitEffects (cfg : RunConfig) (n : Nat) :
    GitEffect.push ∈ postCommitEffects cfg n ↔ cfg.push = true := by
  unfold postCommitEffects
  split_ifs with h1 h2 <;>
    simp_all [List.mem_append, Bool.and_eq_true, Bool.not_eq_true']

/-- Claim C9 counterexample: a run in which the sole proposal is declined
(zero commits applied) but the push option is set still performs the push:
the post-commit stage is not, as a whole, gated on at least one applied
commit. -/
theorem push_without_commits_cex :
    (mainRun { args := [], push := true } true ⟨[], [], ["m.ts"]⟩ none 10
        [[⟨"feat", none, "Add login", false, none, [], ["a.ts"]⟩]]
        ⟨fun _ => false, fun _ => true, fun _ => true, true⟩).commitCount = 0
    ∧ GitEffect.push ∈
        (mainRun { args := [], push := true } true ⟨[], [], ["m.ts"]⟩ none 10
          [[⟨"feat", none, "Add login", false, none, [], ["a.ts"]⟩]]
          ⟨fun _ => false, fun _ => true, fun _ => true, true⟩).effects := by
  constructor
  · rfl
  · decide

/-- Claim C9 (amended): when the loop completes, the pull-request offer is
made exactly when at least one commit was applied and the run was not
configured for unattended force-accept (neither the force nor the yes
alias set); the push is performed exactly when requested, regardless of
how many commits were applied. -/
theorem post_commit_gating :
    ∀ (cfg : RunConfig) (status : RepoStatus) (jiraTicketId : Option String)
      (tokenCount : Nat) (batches : List (List CommitProposal)) (env : LoopEnv)
      (st : LoopState),
      status.isClean = false → status.conflicted = [] →
      (cfg.args = [] ∨ status.staged = []) →
      ((categorizeTokenCount tokenCount).needsConfirmation
        && !cfg.skipTokenCheck && !env.tokenAnswer) = false →
      runBatches jiraTicketId env batches
        { commitCount := 0, effects := [], confirms := 0 } = Except.ok st →
      (GitEffect.pullRequest ∈
          (mainRun cfg true status jiraTicketId tokenCount batches env).effects
        ↔ (0 < (mainRun cfg true status jiraTicketId tokenCount batches
              env).commitCount
            ∧ cfg.force = false ∧ cfg.yes = false))
      ∧ (GitEffect.push ∈
          (mainRun cfg true status jiraTicketId tokenCount batches env).effects
        ↔ cfg.push = true) := by
  intro cfg status jiraTicketId tokenCount batches env st hclean hconf hargs
    htok hrun
  rw [mainRun_of_loop_ok cfg status jiraTicketId tokenCount batches env st
    hclean hconf hargs htok hrun]
  have hshape := runBatch_ok_effects_shape jiraTicketId env batches.flatten
    { commitCount := 0, effects := [], confirms := 0 } st
    (by rw [← runBatches_eq_flatten]; exact hrun)
  have hnopr : GitEffect.pullRequest ∉ st.effects := by
    intro hmem
    rcases hshape _ hmem with h | ⟨fs, h⟩ | ⟨m, fs, h⟩
    · exact absurd h (List.not_mem_nil _)
    · cases h
    · cases h
  have hnopush : GitEffect.push ∉ st.effects := by
    intro hmem
    rcases hshape _ hmem with h | ⟨fs, h⟩ | ⟨m, fs, h⟩
    · exact absurd h (List.not_mem_nil _)
    · cases h
    · cases h
  constructor
  · show GitEffect.pullRequest ∈ st.effects ++ postCommitEffects cfg
      st.commitCount ↔ _
    rw [List.mem_append]
    simp only [hnopr, false_or]
    exact pullRequest_mem_postCommitEffects cfg st.commitCount
  · show GitEffect.push ∈ st.effects ++ postCommitEffects cfg
      st.commitCount ↔ _
    rw [List.mem_append]
    simp only [hnopush, false_or]
    exact push_mem_postCommitEffects cfg st.commitCount

/-- Witness for claim C9: one accepted proposal without force/yes and with
the push option set; the pull-request offer is made and the push is
performed. -/
theorem post_commit_gating_witness :
    (GitEffect.pullRequest ∈
        (mainRun { args := [], push := true } true ⟨[], [], ["m.ts"]⟩ none 10
          [[⟨"feat", none, "Add login", false, none, [], ["a.ts"]⟩]]
          ⟨fun _ => true, fun _ => true, fun _ => true, true⟩).effects
      ↔ (0 < (mainRun { args := [], push := true } true ⟨[], [], ["m.ts"]⟩
            none 10
            [[⟨"feat", none, "Add login", false, none, [], ["a.ts"]⟩]]
            ⟨fun _ => true, fun _ => true, fun _ => true, true⟩).commitCount
          ∧ ({ args := [], push := true } : RunConfig).force = false
          ∧ ({ args := [], push := true } : RunConfig).yes = false))
    ∧ (GitEffect.push ∈
        (mainRun { args := [], push := true } true ⟨[], [], ["m.ts"]⟩ none 10
          [[⟨"feat", none, "Add login", false, none, [], ["a.ts"]⟩]]
          ⟨fun _ => true, fun _ => true, fun _ => true, true⟩).effects
      ↔ ({ args := [], push := true } : RunConfig).push = true) :=
  post_commit_gating { args := [], push := true } ⟨[], [], ["m.ts"]⟩ none 10
    [[⟨"feat", none, "Add login", false, none, [], ["a.ts"]⟩]]
    ⟨fun _ => true, fun _ => true, fun _ => true, true⟩
    ⟨1, [GitEffect.add ["a.ts"], GitEffect.commit "feat: add login" ["a.ts"]], 1⟩
    rfl rfl (Or.inl rfl) rfl rfl
